import Mathlib

/-!
Verification of the TFLite GPU OpenCL `Mean` operation
(`tensorflow/lite/delegates/gpu/cl/kernels/mean.cc`).

The development shallowly embeds:
* the workgroup planner of `Mean::Mean` (lines 29-50),
* the kernel code emitter `Mean::GetMeanKernelCode` (lines 61-120), modelled
  as a list of abstract statements carrying the numeric constants the emitter
  bakes into the source, together with an executable semantics of the indexing
  prologue, the per-lane accumulation loops and the radix-4 reduction tree,
* the launch binder `Mean::BindArguments` (lines 122-129) over exact rational
  arithmetic, and `Mean::GetGridSize` (lines 131-136).
-/

namespace MeanCl

/-- Integer triple mirroring the C++ `int3` used for workgroup and grid sizes.
All values occurring here are small and non-negative, so `ℕ` components are
an exact model. -/
structure Int3 where
  x : ℕ
  y : ℕ
  z : ℕ
deriving DecidableEq

/-- Modelled from the spec: `DeviceInfo` carries a vendor family tag (Adreno,
Mali, or other); the header defining `DeviceInfo` is not part of the sources,
so the mutually exclusive family tag follows §3 of the spec.  For Adreno the
generation predicate `IsAdreno3xx` and for Mali the generation predicates
`IsMaliT6xx`/`IsMaliT7xx`/`IsMaliT8xx` are carried as opaque booleans. -/
inductive DeviceInfo where
  | adreno (is3xx : Bool)
  | mali (isT6xx isT7xx isT8xx : Bool)
  | other
deriving DecidableEq

/-- Mirrors `device_info.IsAdreno()`. -/
def DeviceInfo.IsAdreno : DeviceInfo → Bool
  | DeviceInfo.adreno _ => true
  | _ => false

/-- Mirrors `device_info.IsMali()`. -/
def DeviceInfo.IsMali : DeviceInfo → Bool
  | DeviceInfo.mali _ _ _ => true
  | _ => false

/-- Workgroup selection of `Mean::Mean` (mean.cc lines 34-48): start from the
default `(16,16,1)`; inside `IsAdreno()` narrow to `(16,8,1)` for Adreno 3xx;
inside `IsMali()` pick `(8,4,1)` for T6xx/T7xx/T8xx and `(8,8,1)` otherwise. -/
def meanWorkGroupSize (device_info : DeviceInfo) : Int3 :=
  let wg := Int3.mk 16 16 1
  let wg :=
    match device_info with
    | DeviceInfo.adreno is3xx => if is3xx then Int3.mk 16 8 1 else wg
    | _ => wg
  match device_info with
  | DeviceInfo.mali t6 t7 t8 =>
      if t6 || t7 || t8 then Int3.mk 8 4 1 else Int3.mk 8 8 1
  | _ => wg

/-- Modelled from the spec: the §4.1 selection table, first matching row wins:
Adreno gen ≤ 3xx ↦ `(16,8,1)`; other Adreno ↦ `(16,16,1)`; Mali
T6xx/T7xx/T8xx ↦ `(8,4,1)`; other Mali ↦ `(8,8,1)`; anything else ↦ the
default `(16,16,1)`. -/
def specWorkgroupTable (device_info : DeviceInfo) : Int3 :=
  match device_info with
  | DeviceInfo.adreno is3xx => if is3xx then Int3.mk 16 8 1 else Int3.mk 16 16 1
  | DeviceInfo.mali t6 t7 t8 =>
      if t6 || t7 || t8 then Int3.mk 8 4 1 else Int3.mk 8 8 1
  | DeviceInfo.other => Int3.mk 16 16 1

/-- Mirrors `Mean::BindArguments` line 123: `total_size = Width * Height`,
computed exactly over `ℚ` in place of C++ `double`. -/
def bind_total_size (W H : ℕ) : ℚ := (W : ℚ) * (H : ℚ)

/-- Mirrors `Mean::BindArguments` line 124: `size_0 = wg.x * wg.y`. -/
def bind_size_0 (wg : Int3) : ℚ := (wg.x : ℚ) * (wg.y : ℚ)

/-- Mirrors `Mean::BindArguments` line 125: `size_1 = total_size / size_0`
(true division, not truncated). -/
def bind_size_1 (W H : ℕ) (wg : Int3) : ℚ := bind_total_size W H / bind_size_0 wg

/-- Mirrors `Mean::BindArguments` line 126: the scalar written for
`inv_multiplier_1` is `1.0 / size_1`. -/
def inv_multiplier_1 (W H : ℕ) (wg : Int3) : ℚ := 1 / bind_size_1 W H wg

/-- Mirrors `Mean::BindArguments` line 127: the scalar written for
`inv_multiplier_2` is `1.0 / size_0`. -/
def inv_multiplier_2 (wg : Int3) : ℚ := 1 / bind_size_0 wg

/-- Modelled from the spec: `ceil_ratio(a, b)`, the ceiling of `a` divided by
`b` (§3: "1 / ceil_ratio(H·W, wx·wy)").  The spec names no concrete formula;
the standard rounding-up integer division is used. -/
def ceil_ratio (a b : ℕ) : ℕ := (a + b - 1) / b

/-- Mirrors `Mean::GetGridSize` (mean.cc lines 131-136): grid x and y are the
workgroup x and y, grid z is `Slices * Batch` of the destination. -/
def GetGridSize (work_group_size : Int3) (dstSlices dstBatch : ℕ) : Int3 :=
  Int3.mk work_group_size.x work_group_size.y (dstSlices * dstBatch)

/-- Statements of the indexing prologue emitted by `GetMeanKernelCode`
(mean.cc lines 78-87), one constructor per emitted source line. -/
inductive IdxStmt where
  | readGlobalId2
  | computeSDiv
  | computeBMod
  | setBatchRefDst
  | setBatchRefSrc
  | assignSGid2
  | earlyExitSlices
deriving DecidableEq

/-- Indexing prologue emitted by `GetMeanKernelCode` (mean.cc lines 78-87):
with a BATCH axis on the destination it emits `linear_id_2 = get_global_id(2)`,
`S = linear_id_2 / Batch`, `B = linear_id_2 % Batch` and the two
`SetBatchRef(B)` calls (destination first); otherwise `S = get_global_id(2)`;
both branches are followed by `if (S >= Slices) return`. -/
def emittedIndexing (hasBatchAxis : Bool) : List IdxStmt :=
  (if hasBatchAxis then
    [IdxStmt.readGlobalId2, IdxStmt.computeSDiv, IdxStmt.computeBMod,
     IdxStmt.setBatchRefDst, IdxStmt.setBatchRefSrc]
  else [IdxStmt.assignSGid2]) ++ [IdxStmt.earlyExitSlices]

/-- State of one lane while executing the indexing prologue. -/
structure IdxState where
  linearId2 : ℕ
  S : ℕ
  B : ℕ
  dstBatchRef : Option ℕ
  srcBatchRef : Option ℕ
  returned : Bool
deriving DecidableEq

/-- Small-step semantics of one indexing statement, with the runtime values
`get_global_id(2) = gid2`, `dst_tensor.Batch() = batch` and
`dst_tensor.Slices() = slices`.  Division and modulus are the C `/` and `%`
on non-negative ints, i.e. `Nat` division and modulus. -/
def stepIdx (gid2 batch slices : ℕ) (st : IdxState) : IdxStmt → IdxState
  | IdxStmt.readGlobalId2 => { st with linearId2 := gid2 }
  | IdxStmt.computeSDiv => { st with S := st.linearId2 / batch }
  | IdxStmt.computeBMod => { st with B := st.linearId2 % batch }
  | IdxStmt.setBatchRefDst => { st with dstBatchRef := some st.B }
  | IdxStmt.setBatchRefSrc => { st with srcBatchRef := some st.B }
  | IdxStmt.assignSGid2 => { st with S := gid2 }
  | IdxStmt.earlyExitSlices =>
      if slices ≤ st.S then { st with returned := true } else st

/-- Run a list of indexing statements from the initial (undefined-zero)
state. -/
def runIdx (gid2 batch slices : ℕ) (l : List IdxStmt) : IdxState :=
  l.foldl (stepIdx gid2 batch slices) (IdxState.mk 0 0 0 none none false)

/-- Statements of the accumulation / reduction part of the emitted kernel
body (mean.cc lines 88-117).  `treeStep rem offset` is one radix-4 block
(lines 102-108) with its two baked-in constants; `tailSum idxs` is the serial
tail (lines 111-115) carrying the baked-in `accum` indices it reads, in
emission order. -/
inductive RStmt where
  | initAccum
  | accumulateLoop
  | scaleInv1
  | barrier
  | treeStep (rem offset : ℕ)
  | tailSum (idxs : List ℕ)
  | store
deriving DecidableEq

/-- Radix-4 step blocks emitted by the loop at mean.cc lines 101-110:
while `reminder ≥ 8`, emit one `treeStep reminder offset` followed by a
`barrier`, then continue with `reminder / 4` and `offset * 4`. -/
def emittedTreeSteps (o r : ℕ) : List RStmt :=
  if h : 8 ≤ r then RStmt.treeStep r o :: RStmt.barrier :: emittedTreeSteps (o * 4) (r / 4)
  else []
termination_by r
decreasing_by omega

/-- Final `(offset, reminder)` pair after the emission loop at mean.cc
lines 101-110 exits. -/
def treeLoopExit (o r : ℕ) : ℕ × ℕ :=
  if h : 8 ≤ r then treeLoopExit (o * 4) (r / 4) else (o, r)
termination_by r
decreasing_by omega

/-- Indices read by the serial tail (mean.cc lines 111-115): `accum[0]` from
`sum = accum[0]`, then `accum[offset * i]` for `i = 1 .. fr - 1`, where `fr`
is `reminder` after the trailing `reminder *= 4`. -/
def emittedTailIndices (o fr : ℕ) : List ℕ :=
  0 :: (List.range (fr - 1)).map (fun i => o * (i + 1))

/-- The reduction section the emitter produces after the first barrier: the
radix-4 step blocks followed by the serial tail. -/
def emittedReductionSection (N : ℕ) : List RStmt :=
  emittedTreeSteps 1 (N / 4) ++
    [RStmt.tailSum
      (emittedTailIndices (treeLoopExit 1 (N / 4)).1 ((treeLoopExit 1 (N / 4)).2 * 4))]

/-- The whole emitted kernel body after the indexing prologue (mean.cc
lines 88-117): zero-init of `accum[local_id]`, the per-lane accumulation
loops, the `inv_multiplier_1` scaling, a barrier, the reduction section, and
the final scale-and-store. -/
def emittedBody (N : ℕ) : List RStmt :=
  [RStmt.initAccum, RStmt.accumulateLoop, RStmt.scaleInv1, RStmt.barrier] ++
    emittedReductionSection N ++ [RStmt.store]

/-- Modelled from the spec: the §4.2 radix-4 schedule, continued from state
`(offset, rem)`.  While `rem ≥ 8` one step is emitted (lanes with
`local_id < rem` sum the slots at offsets `offset, 2·offset, 3·offset` from
base `local_id·4·offset` into the base) followed by a barrier, then
`rem ← rem/4`, `offset ← offset·4`; on exit a serial tail sums the
`final_rem = rem·4` slots at indices `0, offset, 2·offset, …,
(final_rem − 1)·offset`. -/
def specScheduleFrom (o r : ℕ) : List RStmt :=
  if h : 8 ≤ r then RStmt.treeStep r o :: RStmt.barrier :: specScheduleFrom (o * 4) (r / 4)
  else [RStmt.tailSum ((List.range (r * 4)).map (fun i => o * i))]
termination_by r
decreasing_by omega

/-- Modelled from the spec: the §4.2 radix-4 schedule for `N` lanes, starting
from `offset = 1`, `rem = N/4`. -/
def specSchedule (N : ℕ) : List RStmt :=
  specScheduleFrom 1 (N / 4)

/-- All `accum` indices occurring in one emitted statement, across every lane
of the `N`-lane workgroup.  For `treeStep rem offset`, lane `l < rem`
computes `t = l * (offset*4)` and touches `accum[t]`, `accum[t+offset]`,
`accum[t+offset*2]`, `accum[t+offset*3]` (lines 102-107); the pre-tree
statements touch `accum[local_id]` for each lane. -/
def RStmt.accumIndices (N : ℕ) : RStmt → List ℕ
  | RStmt.initAccum => List.range N
  | RStmt.accumulateLoop => List.range N
  | RStmt.scaleInv1 => List.range N
  | RStmt.barrier => []
  | RStmt.treeStep r o =>
      (List.range r).flatMap
        (fun l => [l * (o * 4), l * (o * 4) + o, l * (o * 4) + o * 2, l * (o * 4) + o * 3])
  | RStmt.tailSum idxs => idxs
  | RStmt.store => []

/-- Whether a statement writes some cell of the local array `accum`. -/
def RStmt.writesAccum : RStmt → Bool
  | RStmt.initAccum => true
  | RStmt.accumulateLoop => true
  | RStmt.scaleInv1 => true
  | RStmt.treeStep _ _ => true
  | _ => false

/-- Whether a statement makes some lane read an `accum` cell that another
lane wrote: true exactly for the radix-4 steps and the serial tail. -/
def RStmt.readsAcrossLanes : RStmt → Bool
  | RStmt.treeStep _ _ => true
  | RStmt.tailSum _ => true
  | _ => false

/-- Cells of `accum` written by lane `p` when executing one statement of the
`N`-lane kernel body. -/
def RStmt.laneWrites (N : ℕ) : RStmt → ℕ → List ℕ
  | RStmt.initAccum, p => if p < N then [p] else []
  | RStmt.accumulateLoop, p => if p < N then [p] else []
  | RStmt.scaleInv1, p => if p < N then [p] else []
  | RStmt.treeStep r o, p => if p < r then [p * (o * 4)] else []
  | _, _ => []

/-- Cells of `accum` read by lane `p` when executing one statement of the
`N`-lane kernel body (the `+=` and `*=` on `accum[local_id]` read it; the
serial tail runs on lane 0 only). -/
def RStmt.laneReads (N : ℕ) : RStmt → ℕ → List ℕ
  | RStmt.accumulateLoop, p => if p < N then [p] else []
  | RStmt.scaleInv1, p => if p < N then [p] else []
  | RStmt.treeStep r o, p =>
      if p < r then [p * (o * 4), p * (o * 4) + o, p * (o * 4) + o * 2, p * (o * 4) + o * 3]
      else []
  | RStmt.tailSum idxs, p => if p = 0 then idxs else []
  | _, _ => []

/-- Barrier discipline of a statement list: whenever some statement writes
`accum` and a strictly later statement reads `accum` cells across lanes,
some `barrier` statement stands strictly between the two. -/
def BarrierSeparated (L : List RStmt) : Prop :=
  ∀ j ∈ Finset.range L.length, ∀ i ∈ Finset.range j,
    (L.getD i RStmt.store).writesAccum = true →
    (L.getD j RStmt.store).readsAcrossLanes = true →
    ∃ k ∈ Finset.Ioo i j, L.getD k RStmt.store = RStmt.barrier

/-- Index sequence of the emitted counting loop
`for (int s = start; s < bound; s += step)` (mean.cc lines 89-92). -/
def loopIndices (step start bound : ℕ) : List ℕ :=
  if h : start < bound ∧ 0 < step then start :: loopIndices step (start + step) bound
  else []
termination_by bound - start
decreasing_by omega

/-- Value accumulated into `accum[local_y*wx + local_x]` by the per-lane
double loop (mean.cc lines 89-95): the sum of `src(s_x, s_y)` over
`s_y = ly, ly+wy, … < H` and `s_x = lx, lx+wx, … < W`.  One `float4`
component is modelled; the four channels behave identically. -/
def laneSum (src : ℕ → ℕ → ℚ) (W H wx wy lx ly : ℕ) : ℚ :=
  ((loopIndices wy ly H).map (fun sy =>
    ((loopIndices wx lx W).map (fun sx => src sx sy)).sum)).sum

/-- Effect on the whole `accum` array of one emitted radix-4 block
`treeStep r o` (mean.cc lines 102-108): every lane `l < r` overwrites
`accum[l*(o*4)]` with the sum of `accum[l*(o*4)]`, `accum[l*(o*4)+o]`,
`accum[l*(o*4)+o*2]`, `accum[l*(o*4)+o*3]`; all other cells are unchanged.
A cell `i` is such a base slot exactly when `o*4 ∣ i` and `i < o*4*r`. -/
def reduceStep (o r : ℕ) (a : ℕ → ℚ) : ℕ → ℚ :=
  fun i =>
    if i % (o * 4) = 0 ∧ i < o * 4 * r then
      a i + a (i + o) + a (i + o * 2) + a (i + o * 3)
    else a i

/-- Semantics of the emitted radix-4 loop (mean.cc lines 99-110): starting
from `offset = o`, `reminder = r`, apply `reduceStep` while `reminder ≥ 8`,
returning the final `(offset, reminder, accum)`. -/
def reduceLoop (o r : ℕ) (a : ℕ → ℚ) : ℕ × ℕ × (ℕ → ℚ) :=
  if h : 8 ≤ r then reduceLoop (o * 4) (r / 4) (reduceStep o r a) else (o, r, a)
termination_by r
decreasing_by omega

/-- Value of `sum` computed by the serial tail (mean.cc lines 111-115) from a
final radix-4 loop state `(offset, reminder, accum)`: the sum of
`accum[offset*i]` for `i < reminder*4`. -/
def tailValue (t : ℕ × ℕ × (ℕ → ℚ)) : ℚ :=
  ∑ i ∈ Finset.range (t.2.1 * 4), t.2.2 (t.1 * i)

/-- Value of `sum` after the whole reduction (mean.cc lines 99-115) for a
workgroup of `N = wx*wy` lanes: run the radix-4 loop from `offset = 1`,
`reminder = N/4`, then run the serial tail. -/
def meanReduce (N : ℕ) (a : ℕ → ℚ) : ℚ :=
  tailValue (reduceLoop 1 (N / 4) a)

lemma sum_range_four_mul (g : ℕ → ℚ) (r : ℕ) :
    ∑ j ∈ Finset.range (4 * r), g j =
      ∑ j ∈ Finset.range r, (g (4 * j) + g (4 * j + 1) + g (4 * j + 2) + g (4 * j + 3)) := by
  induction r with
  | zero => simp
  | succ n ih =>
    rw [Finset.sum_range_succ, ← ih]
    rw [show 4 * (n + 1) = (4 * n + 3) + 1 by ring, Finset.sum_range_succ]
    rw [show 4 * n + 3 = (4 * n + 2) + 1 by ring, Finset.sum_range_succ]
    rw [show 4 * n + 2 = (4 * n + 1) + 1 by ring, Finset.sum_range_succ]
    rw [show 4 * n + 1 = (4 * n) + 1 by ring, Finset.sum_range_succ]
    ring_nf

lemma reduceStep_sum (o r : ℕ) (ho : 0 < o) (a : ℕ → ℚ) :
    ∑ j ∈ Finset.range r, reduceStep o r a ((o * 4) * j) =
      ∑ j ∈ Finset.range (4 * r), a (o * j) := by
  rw [sum_range_four_mul (fun j => a (o * j)) r]
  refine Finset.sum_congr rfl ?_
  intro j hj
  have hj4 : j < r := Finset.mem_range.mp hj
  have hc1 : ((o * 4) * j) % (o * 4) = 0 := Nat.mul_mod_right (o * 4) j
  have hc2 : (o * 4) * j < o * 4 * r := mul_lt_mul_of_pos_left hj4 (by omega)
  simp only [reduceStep]
  rw [if_pos ⟨hc1, hc2⟩]
  ring_nf

lemma reduceLoop_sum (k : ℕ) : ∀ (m o : ℕ), m < 8 → 0 < o → ∀ a : ℕ → ℚ,
    tailValue (reduceLoop o (4 ^ k * m) a) =
      ∑ j ∈ Finset.range (4 * (4 ^ k * m)), a (o * j) := by
  induction k with
  | zero =>
    intro m o hm ho a
    rw [reduceLoop, dif_neg (by simpa using hm)]
    simp only [tailValue]
    rw [show (4 ^ 0 * m) * 4 = 4 * (4 ^ 0 * m) by ring]
  | succ k ih =>
    intro m o hm ho a
    by_cases h8 : 8 ≤ 4 ^ (k + 1) * m
    · rw [reduceLoop, dif_pos h8]
      have h1 : 4 ^ (k + 1) * m = 4 * (4 ^ k * m) := by ring
      have hr4 : (4 ^ (k + 1) * m) / 4 = 4 ^ k * m := by
        rw [h1]
        exact Nat.mul_div_cancel_left _ (by norm_num)
      rw [hr4]
      rw [ih m (o * 4) hm (by omega) (reduceStep o (4 ^ (k + 1) * m) a)]
      rw [← h1]
      rw [reduceStep_sum o (4 ^ (k + 1) * m) ho a]
    · rw [reduceLoop, dif_neg h8]
      simp only [tailValue]
      rw [show (4 ^ (k + 1) * m) * 4 = 4 * (4 ^ (k + 1) * m) by ring]

lemma meanReduce_eq_sum (k m : ℕ) (hm : m < 8) (a : ℕ → ℚ) :
    meanReduce (4 ^ (k + 1) * m) a = ∑ i ∈ Finset.range (4 ^ (k + 1) * m), a i := by
  have h1 : (4 ^ (k + 1) * m) / 4 = 4 ^ k * m := by
    rw [show 4 ^ (k + 1) * m = 4 * (4 ^ k * m) by ring]
    exact Nat.mul_div_cancel_left _ (by norm_num)
  unfold meanReduce
  rw [h1, reduceLoop_sum k m 1 hm one_pos a]
  rw [show 4 * (4 ^ k * m) = 4 ^ (k + 1) * m by ring]
  simp

lemma loopIndices_map_sum (f : ℕ → ℚ) (step : ℕ) (hs : 0 < step) (bound start : ℕ) :
    ((loopIndices step start bound).map f).sum =
      ∑ n ∈ (Finset.range bound).filter (fun n => start ≤ n ∧ step ∣ (n - start)), f n := by
  rw [loopIndices]
  by_cases h : start < bound
  · rw [dif_pos ⟨h, hs⟩]
    have hrec := loopIndices_map_sum f step hs bound (start + step)
    have hset : (Finset.range bound).filter (fun n => start ≤ n ∧ step ∣ (n - start)) =
        insert start ((Finset.range bound).filter
          (fun n => start + step ≤ n ∧ step ∣ (n - (start + step)))) := by
      ext n
      simp only [Finset.mem_filter, Finset.mem_range, Finset.mem_insert]
      constructor
      · rintro ⟨hn, hsn, hd⟩
        by_cases hns : n = start
        · exact Or.inl hns
        · refine Or.inr ⟨hn, ?_, ?_⟩
          · have hpos : 0 < n - start := by omega
            have := Nat.le_of_dvd hpos hd
            omega
          · have h2 : n - (start + step) = (n - start) - step := by omega
            rw [h2]
            exact Nat.dvd_sub' hd dvd_rfl
      · rintro (rfl | ⟨hn, hsn, hd⟩)
        · exact ⟨h, le_refl _, by simp⟩
        · refine ⟨hn, by omega, ?_⟩
          obtain ⟨k, hk⟩ := hd
          refine ⟨k + 1, ?_⟩
          have hk2 : step * (k + 1) = step * k + step := by ring
          omega
    have hnm : start ∉ (Finset.range bound).filter
        (fun n => start + step ≤ n ∧ step ∣ (n - (start + step))) := by
      intro hmem
      have := (Finset.mem_filter.mp hmem).2.1
      omega
    rw [List.map_cons, List.sum_cons, hrec, hset, Finset.sum_insert hnm]
  · rw [dif_neg (fun hc => h hc.1)]
    have hempty : (Finset.range bound).filter
        (fun n => start ≤ n ∧ step ∣ (n - start)) = ∅ := by
      ext n
      simp only [Finset.mem_filter, Finset.mem_range, Finset.not_mem_empty, iff_false]
      rintro ⟨hn, hsn, -⟩
      omega
    simp [hempty]
termination_by bound - start
decreasing_by omega

lemma filter_stride_eq (B w l : ℕ) (hl : l < w) :
    (Finset.range B).filter (fun n => l ≤ n ∧ w ∣ (n - l)) =
      (Finset.range B).filter (fun n => n % w = l) := by
  ext n
  simp only [Finset.mem_filter, Finset.mem_range]
  constructor
  · rintro ⟨hn, ⟨hln, k, hk⟩⟩
    refine ⟨hn, ?_⟩
    have hnl : n = l + w * k := by omega
    rw [hnl, Nat.add_mul_mod_self_left]
    exact Nat.mod_eq_of_lt hl
  · rintro ⟨hn, hmod⟩
    refine ⟨hn, ?_, ⟨n / w, ?_⟩⟩
    · have := Nat.mod_le n w
      omega
    · have := Nat.div_add_mod n w
      omega

lemma sum_stride_partition (f : ℕ → ℚ) (B w : ℕ) (hw : 0 < w) :
    ∑ l ∈ Finset.range w,
        ∑ n ∈ (Finset.range B).filter (fun n => l ≤ n ∧ w ∣ (n - l)), f n =
      ∑ n ∈ Finset.range B, f n := by
  rw [Finset.sum_congr rfl
    (fun l hl => by rw [filter_stride_eq B w l (Finset.mem_range.mp hl)])]
  exact Finset.sum_fiberwise_of_maps_to
    (fun n _ => Finset.mem_range.mpr (Nat.mod_lt n hw)) f

lemma lane_total_sum (src : ℕ → ℕ → ℚ) (W H wx wy : ℕ) (hwx : 0 < wx) (hwy : 0 < wy) :
    ∑ ly ∈ Finset.range wy, ∑ lx ∈ Finset.range wx, laneSum src W H wx wy lx ly =
      ∑ sy ∈ Finset.range H, ∑ sx ∈ Finset.range W, src sx sy := by
  have hlane : ∀ lx ly, laneSum src W H wx wy lx ly =
      ∑ sy ∈ (Finset.range H).filter (fun n => ly ≤ n ∧ wy ∣ (n - ly)),
        ∑ sx ∈ (Finset.range W).filter (fun n => lx ≤ n ∧ wx ∣ (n - lx)), src sx sy := by
    intro lx ly
    unfold laneSum
    rw [loopIndices_map_sum _ wy hwy H ly]
    exact Finset.sum_congr rfl
      (fun sy _ => loopIndices_map_sum (fun sx => src sx sy) wx hwx W lx)
  calc
    ∑ ly ∈ Finset.range wy, ∑ lx ∈ Finset.range wx, laneSum src W H wx wy lx ly =
        ∑ ly ∈ Finset.range wy, ∑ lx ∈ Finset.range wx,
          ∑ sy ∈ (Finset.range H).filter (fun n => ly ≤ n ∧ wy ∣ (n - ly)),
            ∑ sx ∈ (Finset.range W).filter (fun n => lx ≤ n ∧ wx ∣ (n - lx)), src sx sy := by
      exact Finset.sum_congr rfl (fun ly _ => Finset.sum_congr rfl
        (fun lx _ => hlane lx ly))
    _ = ∑ ly ∈ Finset.range wy,
          ∑ sy ∈ (Finset.range H).filter (fun n => ly ≤ n ∧ wy ∣ (n - ly)),
            ∑ lx ∈ Finset.range wx,
              ∑ sx ∈ (Finset.range W).filter (fun n => lx ≤ n ∧ wx ∣ (n - lx)), src sx sy := by
      exact Finset.sum_congr rfl (fun ly _ => Finset.sum_comm)
    _ = ∑ ly ∈ Finset.range wy,
          ∑ sy ∈ (Finset.range H).filter (fun n => ly ≤ n ∧ wy ∣ (n - ly)),
            ∑ sx ∈ Finset.range W, src sx sy := by
      exact Finset.sum_congr rfl (fun ly _ => Finset.sum_congr rfl
        (fun sy _ => sum_stride_partition (fun sx => src sx sy) W wx hwx))
    _ = ∑ sy ∈ Finset.range H, ∑ sx ∈ Finset.range W, src sx sy := by
      exact sum_stride_partition (fun sy => ∑ sx ∈ Finset.range W, src sx sy) H wy hwy

lemma meanWorkGroupSize_cases (d : DeviceInfo) :
    meanWorkGroupSize d = Int3.mk 16 16 1 ∨ meanWorkGroupSize d = Int3.mk 16 8 1 ∨
      meanWorkGroupSize d = Int3.mk 8 4 1 ∨ meanWorkGroupSize d = Int3.mk 8 8 1 := by
  cases d with
  | adreno b => cases b <;> simp [meanWorkGroupSize]
  | mali t6 t7 t8 => cases t6 <;> cases t7 <;> cases t8 <;> simp [meanWorkGroupSize]
  | other => simp [meanWorkGroupSize]

lemma binder_inv1_eq (W H : ℕ) (wg : Int3) (hW : (W : ℚ) ≠ 0) (hH : (H : ℚ) ≠ 0)
    (hx : ((wg.x : ℚ)) ≠ 0) (hy : ((wg.y : ℚ)) ≠ 0) :
    inv_multiplier_1 W H wg = ((wg.x : ℚ) * (wg.y : ℚ)) / ((H : ℚ) * (W : ℚ)) := by
  unfold inv_multiplier_1 bind_size_1 bind_total_size bind_size_0
  field_simp
  ring

lemma binder_product_eq (W H : ℕ) (wg : Int3) (hW : (W : ℚ) ≠ 0) (hH : (H : ℚ) ≠ 0)
    (hx : ((wg.x : ℚ)) ≠ 0) (hy : ((wg.y : ℚ)) ≠ 0) :
    inv_multiplier_1 W H wg * inv_multiplier_2 wg = 1 / ((H : ℚ) * (W : ℚ)) := by
  unfold inv_multiplier_1 inv_multiplier_2 bind_size_1 bind_total_size bind_size_0
  field_simp
  ring

lemma binder_norm_eq (W H : ℕ) (wg : Int3) (hW : (W : ℚ) ≠ 0) (hH : (H : ℚ) ≠ 0)
    (hx : ((wg.x : ℚ)) ≠ 0) (hy : ((wg.y : ℚ)) ≠ 0) :
    inv_multiplier_1 W H wg * inv_multiplier_2 wg * ((W : ℚ) * (H : ℚ)) = 1 := by
  unfold inv_multiplier_1 inv_multiplier_2 bind_size_1 bind_total_size bind_size_0
  field_simp
  ring

lemma cast_pos_of_mul_pos_left (W H : ℕ) (hWH : 0 < W * H) : (W : ℚ) ≠ 0 := by
  have : W ≠ 0 := by
    rintro rfl
    simp at hWH
  exact_mod_cast this

lemma cast_pos_of_mul_pos_right (W H : ℕ) (hWH : 0 < W * H) : (H : ℚ) ≠ 0 := by
  have : H ≠ 0 := by
    rintro rfl
    simp at hWH
  exact_mod_cast this

/-- C1: for every workgroup chosen by the planner and every runtime source
shape with `H·W > 0`, the two scalars computed by `BindArguments` satisfy
`inv_multiplier_1 · inv_multiplier_2 = 1 / (H·W)` in exact arithmetic over
the binder's formulas. -/
theorem claim_C1 (d : DeviceInfo) (W H : ℕ) (hWH : 0 < W * H) :
    inv_multiplier_1 W H (meanWorkGroupSize d) * inv_multiplier_2 (meanWorkGroupSize d) =
      1 / ((H : ℚ) * (W : ℚ)) := by
  have hW := cast_pos_of_mul_pos_left W H hWH
  have hH := cast_pos_of_mul_pos_right W H hWH
  rcases meanWorkGroupSize_cases d with h | h | h | h <;> rw [h] <;>
    exact binder_product_eq W H _ hW hH (by norm_num) (by norm_num)

/-- Witness for C1 at the default device, `W = 8`, `H = 4`. -/
theorem claim_C1_witness :
    0 < 8 * 4 ∧
      inv_multiplier_1 8 4 (meanWorkGroupSize DeviceInfo.other) *
          inv_multiplier_2 (meanWorkGroupSize DeviceInfo.other) =
        1 / (((4 : ℕ) : ℚ) * ((8 : ℕ) : ℚ)) :=
  ⟨by norm_num, claim_C1 DeviceInfo.other 8 4 (by norm_num)⟩

/-- C2, counterexample: with the default workgroup `(16,16)` and a source
shape `W = 5`, `H = 1`, the binder writes `inv_multiplier_1 = 256/5`, while
`1 / ceil_ratio(H·W, wx·wy) = 1/1 = 1`.  The claim's equation is false on the
code. -/
theorem claim_C2_counterexample :
    inv_multiplier_1 5 1 (meanWorkGroupSize DeviceInfo.other) ≠
      (1 : ℚ) / ((ceil_ratio (1 * 5) ((meanWorkGroupSize DeviceInfo.other).x *
        (meanWorkGroupSize DeviceInfo.other).y) : ℕ) : ℚ) := by
  norm_num [inv_multiplier_1, bind_size_1, bind_total_size, bind_size_0,
    meanWorkGroupSize, ceil_ratio]

/-- C2, amended: the value `BindArguments` writes for `inv_multiplier_1` is
the reciprocal of the exact (not rounded-up) ratio `H·W / (wx·wy)`, i.e.
`inv_multiplier_1 = (wx·wy) / (H·W)`; it equals `1 / ceil_ratio(H·W, wx·wy)`
only when `wx·wy` divides `H·W`. -/
theorem claim_C2 (d : DeviceInfo) (W H : ℕ) (hWH : 0 < W * H) :
    inv_multiplier_1 W H (meanWorkGroupSize d) =
      (((meanWorkGroupSize d).x : ℚ) * ((meanWorkGroupSize d).y : ℚ)) /
        ((H : ℚ) * (W : ℚ)) := by
  have hW := cast_pos_of_mul_pos_left W H hWH
  have hH := cast_pos_of_mul_pos_right W H hWH
  rcases meanWorkGroupSize_cases d with h | h | h | h <;> rw [h] <;>
    exact binder_inv1_eq W H _ hW hH (by norm_num) (by norm_num)

/-- Witness for the amended C2 at the default device, `W = 5`, `H = 1`. -/
theorem claim_C2_witness :
    0 < 5 * 1 ∧
      inv_multiplier_1 5 1 (meanWorkGroupSize DeviceInfo.other) =
        (((meanWorkGroupSize DeviceInfo.other).x : ℚ) *
            ((meanWorkGroupSize DeviceInfo.other).y : ℚ)) /
          (((1 : ℕ) : ℚ) * ((5 : ℕ) : ℚ)) :=
  ⟨by norm_num, claim_C2 DeviceInfo.other 5 1 (by norm_num)⟩

/-- C5: the constructor realizes the spec's selection table with first
matching row winning — Adreno gen ≤ 3xx gets `(16,8,1)`, other Adreno
`(16,16,1)`, Mali T6xx/T7xx/T8xx `(8,4,1)`, other Mali `(8,8,1)`, everything
else the default `(16,16,1)` — and construction is total on `DeviceInfo`. -/
theorem claim_C5 (d : DeviceInfo) : meanWorkGroupSize d = specWorkgroupTable d := by
  cases d with
  | adreno b => cases b <;> rfl
  | mali t6 t7 t8 => cases t6 <;> cases t7 <;> cases t8 <;> rfl
  | other => rfl

/-- C6: for every `DeviceInfo`, the workgroup chosen at construction
satisfies `(wx·wy) % 4 = 0`, `wz = 1`, and `wx·wy ≥ 16`. -/
theorem claim_C6 (d : DeviceInfo) :
    ((meanWorkGroupSize d).x * (meanWorkGroupSize d).y) % 4 = 0 ∧
      (meanWorkGroupSize d).z = 1 ∧
      16 ≤ (meanWorkGroupSize d).x * (meanWorkGroupSize d).y := by
  rcases meanWorkGroupSize_cases d with h | h | h | h <;> rw [h] <;> norm_num

/-- C8: `GetGridSize` returns exactly `(wx, wy, Slices·Batch)` where
`(wx, wy)` is the workgroup chosen at construction. -/
theorem claim_C8 (d : DeviceInfo) (slices batch : ℕ) :
    GetGridSize (meanWorkGroupSize d) slices batch =
      Int3.mk (meanWorkGroupSize d).x (meanWorkGroupSize d).y (slices * batch) := rfl

/-- C7: with a BATCH axis on the destination the emitted prologue computes
`S = get_global_id(2) / Batch`, `B = get_global_id(2) % Batch` and sets the
batch reference on both tensors; without it `S = get_global_id(2)` and no
batch reference is set; in either case the lane's early `return` fires
exactly when `S ≥ Slices`. -/
theorem claim_C7 (hasBatchAxis : Bool) (gid2 batch slices : ℕ) :
    (runIdx gid2 batch slices (emittedIndexing hasBatchAxis)).S =
        (if hasBatchAxis then gid2 / batch else gid2) ∧
      (runIdx gid2 batch slices (emittedIndexing hasBatchAxis)).dstBatchRef =
        (if hasBatchAxis then some (gid2 % batch) else none) ∧
      (runIdx gid2 batch slices (emittedIndexing hasBatchAxis)).srcBatchRef =
        (if hasBatchAxis then some (gid2 % batch) else none) ∧
      (runIdx gid2 batch slices (emittedIndexing hasBatchAxis)).returned =
        decide (slices ≤ (runIdx gid2 batch slices (emittedIndexing hasBatchAxis)).S) := by
  cases hasBatchAxis
  · by_cases h : slices ≤ gid2
    · simp [runIdx, emittedIndexing, stepIdx, h]
    · simp [runIdx, emittedIndexing, stepIdx, h]
  · by_cases h : slices ≤ gid2 / batch
    · simp [runIdx, emittedIndexing, stepIdx, h]
    · simp [runIdx, emittedIndexing, stepIdx, h]

/-- C4: for every workgroup size `N = wx·wy` the planner can produce, the
emitted reduction section — the radix-4 steps, their interleaved barriers,
and the serial tail with its baked-in index list — coincides with the
schedule described in §4.2 of the spec. -/
theorem claim_C4 (d : DeviceInfo) :
    emittedReductionSection ((meanWorkGroupSize d).x * (meanWorkGroupSize d).y) =
      specSchedule ((meanWorkGroupSize d).x * (meanWorkGroupSize d).y) := by
  rcases meanWorkGroupSize_cases d with h | h | h | h <;> rw [h]
  · show emittedReductionSection 256 = specSchedule 256
    simp [emittedReductionSection, specSchedule, emittedTreeSteps, treeLoopExit,
      emittedTailIndices, specScheduleFrom]
    decide
  · show emittedReductionSection 128 = specSchedule 128
    simp [emittedReductionSection, specSchedule, emittedTreeSteps, treeLoopExit,
      emittedTailIndices, specScheduleFrom]
    decide
  · show emittedReductionSection 32 = specSchedule 32
    simp [emittedReductionSection, specSchedule, emittedTreeSteps, treeLoopExit,
      emittedTailIndices, specScheduleFrom]
    decide
  · show emittedReductionSection 64 = specSchedule 64
    simp [emittedReductionSection, specSchedule, emittedTreeSteps, treeLoopExit,
      emittedTailIndices, specScheduleFrom]
    decide

/-- C9: in the emitted body, every statement that writes the local array
`accum` is separated by an intervening `barrier` from every later statement
in which some lane reads cells written by other lanes (the tree steps and
the serial tail); and every statement that does not read across lanes only
touches `accum[local_id]` of the executing lane, so no unbarriered
same-cell read by a different lane exists. -/
theorem claim_C9 (d : DeviceInfo) :
    BarrierSeparated (emittedBody ((meanWorkGroupSize d).x * (meanWorkGroupSize d).y)) ∧
      (∀ s : RStmt, s.readsAcrossLanes = false → ∀ p c : ℕ,
        (c ∈ s.laneReads ((meanWorkGroupSize d).x * (meanWorkGroupSize d).y) p ∨
          c ∈ s.laneWrites ((meanWorkGroupSize d).x * (meanWorkGroupSize d).y) p) →
        c = p) := by
  constructor
  · rcases meanWorkGroupSize_cases d with h | h | h | h <;> rw [h]
    · show BarrierSeparated (emittedBody 256)
      simp [emittedBody, emittedReductionSection, emittedTreeSteps, treeLoopExit,
        emittedTailIndices]
      unfold BarrierSeparated
      decide
    · show BarrierSeparated (emittedBody 128)
      simp [emittedBody, emittedReductionSection, emittedTreeSteps, treeLoopExit,
        emittedTailIndices]
      unfold BarrierSeparated
      decide
    · show BarrierSeparated (emittedBody 32)
      simp [emittedBody, emittedReductionSection, emittedTreeSteps, treeLoopExit,
        emittedTailIndices]
      unfold BarrierSeparated
      decide
    · show BarrierSeparated (emittedBody 64)
      simp [emittedBody, emittedReductionSection, emittedTreeSteps, treeLoopExit,
        emittedTailIndices]
      unfold BarrierSeparated
      decide
  · intro s hs p c hc
    rcases hc with hc | hc <;> cases s <;>
      simp_all [RStmt.laneReads, RStmt.laneWrites, RStmt.readsAcrossLanes]

/-- Witness for C9: the barrier property holds on the concrete default-device
body, and a concrete same-lane access is its own lane's slot. -/
theorem claim_C9_witness :
    BarrierSeparated (emittedBody ((meanWorkGroupSize DeviceInfo.other).x *
        (meanWorkGroupSize DeviceInfo.other).y)) ∧ (3 : ℕ) = 3 :=
  ⟨(claim_C9 DeviceInfo.other).1,
    (claim_C9 DeviceInfo.other).2 RStmt.initAccum rfl 3 3 (Or.inr (by decide))⟩

set_option maxRecDepth 8192 in
/-- C10: for every workgroup the planner can produce, every `accum` index in
every emitted statement is below `N = wx·wy`; moreover the serial tail's
largest baked-in index `(final_rem − 1)·offset` equals `N − offset`. -/
theorem claim_C10 (d : DeviceInfo) :
    (∀ s ∈ emittedBody ((meanWorkGroupSize d).x * (meanWorkGroupSize d).y),
      ∀ i ∈ RStmt.accumIndices ((meanWorkGroupSize d).x * (meanWorkGroupSize d).y) s,
        i < (meanWorkGroupSize d).x * (meanWorkGroupSize d).y) ∧
      ((treeLoopExit 1 (((meanWorkGroupSize d).x * (meanWorkGroupSize d).y) / 4)).2 * 4 - 1) *
          (treeLoopExit 1 (((meanWorkGroupSize d).x * (meanWorkGroupSize d).y) / 4)).1 =
        (meanWorkGroupSize d).x * (meanWorkGroupSize d).y -
          (treeLoopExit 1 (((meanWorkGroupSize d).x * (meanWorkGroupSize d).y) / 4)).1 := by
  rcases meanWorkGroupSize_cases d with h | h | h | h <;> rw [h]
  · simp only [show (Int3.mk 16 16 1).x * (Int3.mk 16 16 1).y = 256 from rfl]
    simp [emittedBody, emittedReductionSection, emittedTreeSteps, treeLoopExit,
      emittedTailIndices]
    decide
  · simp only [show (Int3.mk 16 8 1).x * (Int3.mk 16 8 1).y = 128 from rfl]
    simp [emittedBody, emittedReductionSection, emittedTreeSteps, treeLoopExit,
      emittedTailIndices]
    decide
  · simp only [show (Int3.mk 8 4 1).x * (Int3.mk 8 4 1).y = 32 from rfl]
    simp [emittedBody, emittedReductionSection, emittedTreeSteps, treeLoopExit,
      emittedTailIndices]
    decide
  · simp only [show (Int3.mk 8 8 1).x * (Int3.mk 8 8 1).y = 64 from rfl]
    simp [emittedBody, emittedReductionSection, emittedTreeSteps, treeLoopExit,
      emittedTailIndices]
    decide

/-- Witness for C10: the largest tree-step access of the first radix-4 step
on the default device is in bounds. -/
theorem claim_C10_witness :
    (255 : ℕ) < (meanWorkGroupSize DeviceInfo.other).x * (meanWorkGroupSize DeviceInfo.other).y :=
  (claim_C10 DeviceInfo.other).1 (RStmt.treeStep 64 1)
    (by
      simp only [show (meanWorkGroupSize DeviceInfo.other).x *
        (meanWorkGroupSize DeviceInfo.other).y = 256 from rfl]
      simp [emittedBody, emittedReductionSection, emittedTreeSteps, treeLoopExit,
        emittedTailIndices])
    255 (by decide)

/-- C3: for every workgroup the planner can produce and every `W, H > 0`:
the per-lane loops collectively read each spatial cell exactly once (the sum
of all lane partial sums equals the sum over all cells, for every value
assignment `src`); the tree-plus-tail reduction adds each lane's slot exactly
once (it computes the plain sum of all `N = wx·wy` slots, for every slot
assignment `a`); and `inv_multiplier_1 · inv_multiplier_2 · (W·H) = 1`,
where `W·H` is the count of spatial cells summed into `accum` across all
lanes. -/
theorem claim_C3 (d : DeviceInfo) (W H : ℕ) (hW : 0 < W) (hH : 0 < H)
    (src : ℕ → ℕ → ℚ) :
    (∑ ly ∈ Finset.range (meanWorkGroupSize d).y,
        ∑ lx ∈ Finset.range (meanWorkGroupSize d).x,
          laneSum src W H (meanWorkGroupSize d).x (meanWorkGroupSize d).y lx ly =
      ∑ sy ∈ Finset.range H, ∑ sx ∈ Finset.range W, src sx sy) ∧
      (∀ a : ℕ → ℚ, meanReduce ((meanWorkGroupSize d).x * (meanWorkGroupSize d).y) a =
        ∑ i ∈ Finset.range ((meanWorkGroupSize d).x * (meanWorkGroupSize d).y), a i) ∧
      inv_multiplier_1 W H (meanWorkGroupSize d) * inv_multiplier_2 (meanWorkGroupSize d) *
        ((W : ℚ) * (H : ℚ)) = 1 := by
  have hWq : (W : ℚ) ≠ 0 := Nat.cast_ne_zero.mpr (by omega)
  have hHq : (H : ℚ) ≠ 0 := Nat.cast_ne_zero.mpr (by omega)
  rcases meanWorkGroupSize_cases d with h | h | h | h <;> rw [h]
  · refine ⟨lane_total_sum src W H _ _ (by norm_num) (by norm_num), fun a => ?_,
      binder_norm_eq W H _ hWq hHq (by norm_num) (by norm_num)⟩
    have h2 := meanReduce_eq_sum 2 4 (by norm_num) a
    norm_num at h2 ⊢
    exact h2
  · refine ⟨lane_total_sum src W H _ _ (by norm_num) (by norm_num), fun a => ?_,
      binder_norm_eq W H _ hWq hHq (by norm_num) (by norm_num)⟩
    have h2 := meanReduce_eq_sum 2 2 (by norm_num) a
    norm_num at h2 ⊢
    exact h2
  · refine ⟨lane_total_sum src W H _ _ (by norm_num) (by norm_num), fun a => ?_,
      binder_norm_eq W H _ hWq hHq (by norm_num) (by norm_num)⟩
    have h2 := meanReduce_eq_sum 1 2 (by norm_num) a
    norm_num at h2 ⊢
    exact h2
  · refine ⟨lane_total_sum src W H _ _ (by norm_num) (by norm_num), fun a => ?_,
      binder_norm_eq W H _ hWq hHq (by norm_num) (by norm_num)⟩
    have h2 := meanReduce_eq_sum 1 4 (by norm_num) a
    norm_num at h2 ⊢
    exact h2

/-- Witness for C3 at the default device, `W = 2`, `H = 3`, and the source
`src sx sy = sx + 2·sy`. -/
theorem claim_C3_witness :
    0 < 2 ∧ 0 < 3 ∧
      ((∑ ly ∈ Finset.range (meanWorkGroupSize DeviceInfo.other).y,
          ∑ lx ∈ Finset.range (meanWorkGroupSize DeviceInfo.other).x,
            laneSum (fun sx sy => (sx : ℚ) + 2 * (sy : ℚ)) 2 3
              (meanWorkGroupSize DeviceInfo.other).x
              (meanWorkGroupSize DeviceInfo.other).y lx ly =
        ∑ sy ∈ Finset.range 3, ∑ sx ∈ Finset.range 2, ((sx : ℚ) + 2 * (sy : ℚ))) ∧
        (∀ a : ℕ → ℚ,
          meanReduce ((meanWorkGroupSize DeviceInfo.other).x *
              (meanWorkGroupSize DeviceInfo.other).y) a =
            ∑ i ∈ Finset.range ((meanWorkGroupSize DeviceInfo.other).x *
              (meanWorkGroupSize DeviceInfo.other).y), a i) ∧
        inv_multiplier_1 2 3 (meanWorkGroupSize DeviceInfo.other) *
            inv_multiplier_2 (meanWorkGroupSize DeviceInfo.other) *
          (((2 : ℕ) : ℚ) * ((3 : ℕ) : ℚ)) = 1) :=
  ⟨by norm_num, by norm_num,
    claim_C3 DeviceInfo.other 2 3 (by norm_num) (by norm_num)
      (fun sx sy => (sx : ℚ) + 2 * (sy : ℚ))⟩

end MeanCl
